import Mathlib

/-!
# Verification of the letusinfra (Yamlet) core subsystems

Shallow embedding of the core data model and algorithms of the Yamlet
infrastructure-as-code orchestrator, together with proofs about them:

* instance state / diff merge (`InstanceState.merge_diff`,
  `crates/plugin-sdk/src/schema/instance_state.rs`);
* the convergence engine (`StateChangeConfig::wait_until_state`,
  `src/aws/internal/wait_and_refresh.rs`);
* schema validation (`Schema::validate_schema`,
  `crates/plugin-sdk/src/schema/schema.rs`);
* the JSON / protobuf value conversions (`json_to_pb_value`,
  `pb_value_to_json`, `crates/yamlet-core/src/provider/mod.rs` and
  `crates/aws-provider/src/lib.rs`).

Conventions used throughout the embedding:

* Rust `HashMap<String, String>` and `BTreeMap<String, _>` values are
  modelled as association lists (`List (String × _)`).  A `HashMap` has no
  observable entry order but guarantees key uniqueness, so facts that in
  Rust rely on the map invariant take a `keyNodup` hypothesis.  A
  `BTreeMap` iterates its (unique) keys in ascending order; the embedding
  carries the entry list in that iteration order.
* Rust `Duration` values are modelled as `Nat` nanoseconds.
* `u32` loop counters are modelled as `Nat`; the wrap-around of a `u32`
  is reachable only after 2^32 poll iterations of the convergence loop
  (decades of wall-clock sleeping) and is outside the model.
-/

namespace Yamlet

/-! ## Association-list maps

`AttrMap` models `HashMap<String, String>` / `BTreeMap<String, String>`:
`lookupA` finds the first entry for a key, `insertA` updates the first
entry in place or appends a fresh one, `removeA` deletes the first entry,
matching the map operations used by the source on key-unique maps. -/

/-- A string-to-string map, as the list of its entries. -/
abbrev AttrMap := List (String × String)

/-- `HashMap::get`: value of the first entry whose key is `k`. -/
def lookupA (k : String) : AttrMap → Option String
  | [] => none
  | (k', v) :: t => if k' = k then some v else lookupA k t

/-- `HashMap::insert`: update the entry for `k` in place, or append one. -/
def insertA (k v : String) : AttrMap → AttrMap
  | [] => [(k, v)]
  | (k', v') :: t => if k' = k then (k', v) :: t else (k', v') :: insertA k v t

/-- `HashMap::remove`: drop the first entry whose key is `k`. -/
def removeA (k : String) : AttrMap → AttrMap
  | [] => []
  | (k', v') :: t => if k' = k then t else (k', v') :: removeA k t

/-- The keys of an entry list are pairwise distinct (the `HashMap` /
`BTreeMap` invariant). -/
def keyNodup {β : Type} (m : List (String × β)) : Prop :=
  (m.map Prod.fst).Nodup

instance {β : Type} (m : List (String × β)) : Decidable (keyNodup m) := by
  unfold keyNodup; infer_instance

/-! ## Instance state and diff
(`crates/plugin-sdk/src/schema/instance_state.rs`,
`crates/plugin-sdk/src/schema/instance_diff.rs`) -/

/-- `DiffType`: whether an attribute is provided by the user or computed
by the provider. -/
inductive DiffType where
  | provided
  | computed
deriving DecidableEq, Repr

/-- `ResourceAttrDiff`: the diff of a single attribute of a resource. -/
structure ResourceAttrDiff where
  old : String
  new : String
  new_computed : Bool
  new_removed : Bool
  requires_new : Bool
  sensitive : Bool
  diff_attr_type : DiffType
deriving DecidableEq, Repr

/-- `InstanceDiff`: the diff of a resource between one state and another.
`attributes` is a `BTreeMap` in the source; the embedding carries its
entry list in iteration (ascending-key) order. -/
structure InstanceDiff where
  attributes : List (String × ResourceAttrDiff)
  destroy : Bool
  identity : AttrMap
deriving DecidableEq, Repr

/-- `InstanceState`: the unique state information of a resource. -/
structure InstanceState where
  id : String
  attributes : AttrMap
  identity : AttrMap
deriving DecidableEq, Repr

/-- Modelled from the spec: the reserved "unknown value" sentinel
`YAMLET_UNKNOWN_VARIABLE_VALUE` written by `merge_diff` for
`new_computed` entries.  Its defining module
(`plugin-sdk`'s `utils::constants`) is not part of the provided sources;
the spec fixes only that it is a reserved placeholder string, so the
concrete literal below is a stand-in and no proof depends on its value. -/
def YAMLET_UNKNOWN_VARIABLE_VALUE : String := "<yamlet-unknown-value>"

/-- One step of the second loop of `merge_diff`: apply a single diff
entry to the accumulated attribute map.  Precedence as in the source:
`new_removed` deletes the key, else `new_computed` writes the sentinel,
else `new` is written verbatim. -/
def applyAttrDiff (m : AttrMap) (e : String × ResourceAttrDiff) : AttrMap :=
  if e.2.new_removed then removeA e.1 m
  else if e.2.new_computed then insertA e.1 YAMLET_UNKNOWN_VARIABLE_VALUE m
  else insertA e.1 e.2.new m

/-- `InstanceState::merge_diff`: clone the state, re-insert the state's
own attribute entries, then fold the diff entries over the attribute map.
Only `attributes` is rebuilt; `id` and `identity` come from the clone. -/
def InstanceState.merge_diff (s : InstanceState) (diff : InstanceDiff) : InstanceState :=
  let base := s.attributes.foldl (fun m kv => insertA kv.1 kv.2 m) s.attributes
  { s with attributes := diff.attributes.foldl applyAttrDiff base }

/-! ### Map lemmas -/

theorem lookupA_insertA_self (k v : String) (m : AttrMap) :
    lookupA k (insertA k v m) = some v := by
  induction m with
  | nil => simp [insertA, lookupA]
  | cons e t ih =>
    obtain ⟨k', v'⟩ := e
    by_cases h : k' = k
    · rw [insertA, if_pos h, lookupA, if_pos h]
    · rw [insertA, if_neg h, lookupA, if_neg h]
      exact ih

theorem lookupA_insertA_ne (k k' v : String) (m : AttrMap) (h : k' ≠ k) :
    lookupA k (insertA k' v m) = lookupA k m := by
  induction m with
  | nil => simp [insertA, lookupA, h]
  | cons e t ih =>
    obtain ⟨a, b⟩ := e
    by_cases h2 : a = k'
    · have hak : ¬ a = k := fun hc => h (h2 ▸ hc)
      rw [insertA, if_pos h2, lookupA, lookupA, if_neg hak, if_neg hak]
    · rw [insertA, if_neg h2, lookupA, lookupA]
      by_cases h3 : a = k
      · rw [if_pos h3, if_pos h3]
      · rw [if_neg h3, if_neg h3]
        exact ih

theorem lookupA_removeA_ne (k k' : String) (m : AttrMap) (h : k' ≠ k) :
    lookupA k (removeA k' m) = lookupA k m := by
  induction m with
  | nil => simp [removeA]
  | cons e t ih =>
    obtain ⟨a, b⟩ := e
    by_cases h2 : a = k'
    · rw [removeA, if_pos h2, lookupA, if_neg (h2 ▸ h)]
    · rw [removeA, if_neg h2, lookupA, lookupA]
      by_cases h3 : a = k
      · rw [if_pos h3, if_pos h3]
      · rw [if_neg h3, if_neg h3]
        exact ih

theorem lookupA_eq_none_of_not_mem (k : String) (m : AttrMap)
    (h : k ∉ m.map Prod.fst) : lookupA k m = none := by
  induction m with
  | nil => rfl
  | cons e t ih =>
    obtain ⟨a, b⟩ := e
    simp only [List.map_cons, List.mem_cons, not_or] at h
    rw [lookupA, if_neg (fun hc => h.1 hc.symm)]
    exact ih h.2

theorem lookupA_removeA_self (k : String) (m : AttrMap) (hm : keyNodup m) :
    lookupA k (removeA k m) = none := by
  induction m with
  | nil => rfl
  | cons e t ih =>
    obtain ⟨a, b⟩ := e
    simp only [keyNodup, List.map_cons, List.nodup_cons] at hm
    by_cases h : a = k
    · rw [removeA, if_pos h]
      exact lookupA_eq_none_of_not_mem k t (h ▸ hm.1)
    · rw [removeA, if_neg h, lookupA, if_neg h]
      exact ih hm.2

theorem mem_keys_insertA (k v k' : String) (m : AttrMap)
    (h : k' ∈ (insertA k v m).map Prod.fst) : k' ∈ m.map Prod.fst ∨ k' = k := by
  induction m with
  | nil =>
    simp only [insertA, List.map_cons, List.map_nil, List.mem_singleton] at h
    exact Or.inr h
  | cons e t ih =>
    obtain ⟨a, b⟩ := e
    by_cases h2 : a = k
    · rw [insertA, if_pos h2] at h
      simp only [List.map_cons, List.mem_cons] at h ⊢
      exact Or.inl h
    · rw [insertA, if_neg h2] at h
      simp only [List.map_cons, List.mem_cons] at h ⊢
      rcases h with h | h
      · exact Or.inl (Or.inl h)
      · rcases ih h with h | h
        · exact Or.inl (Or.inr h)
        · exact Or.inr h

theorem mem_keys_removeA (k k' : String) (m : AttrMap)
    (h : k' ∈ (removeA k m).map Prod.fst) : k' ∈ m.map Prod.fst := by
  induction m with
  | nil => simp [removeA] at h
  | cons e t ih =>
    obtain ⟨a, b⟩ := e
    by_cases h2 : a = k
    · rw [removeA, if_pos h2] at h
      simp only [List.map_cons, List.mem_cons]
      exact Or.inr h
    · rw [removeA, if_neg h2] at h
      simp only [List.map_cons, List.mem_cons] at h ⊢
      rcases h with h | h
      · exact Or.inl h
      · exact Or.inr (ih h)

theorem keyNodup_insertA (k v : String) (m : AttrMap) (hm : keyNodup m) :
    keyNodup (insertA k v m) := by
  induction m with
  | nil => simp [insertA, keyNodup]
  | cons e t ih =>
    obtain ⟨a, b⟩ := e
    simp only [keyNodup, List.map_cons, List.nodup_cons] at hm
    by_cases h : a = k
    · rw [insertA, if_pos h]
      simp only [keyNodup, List.map_cons, List.nodup_cons]
      exact hm
    · rw [insertA, if_neg h]
      simp only [keyNodup, List.map_cons, List.nodup_cons]
      refine ⟨?_, ih hm.2⟩
      intro hc
      rcases mem_keys_insertA k v a t hc with hy | hy
      · exact hm.1 hy
      · exact h hy

theorem keyNodup_removeA (k : String) (m : AttrMap) (hm : keyNodup m) :
    keyNodup (removeA k m) := by
  induction m with
  | nil => simp [removeA, keyNodup]
  | cons e t ih =>
    obtain ⟨a, b⟩ := e
    simp only [keyNodup, List.map_cons, List.nodup_cons] at hm
    by_cases h : a = k
    · rw [removeA, if_pos h]
      exact hm.2
    · rw [removeA, if_neg h]
      simp only [keyNodup, List.map_cons, List.nodup_cons]
      exact ⟨fun hc => hm.1 (mem_keys_removeA k a t hc), ih hm.2⟩

theorem insertA_self (k v : String) (m : AttrMap) (h : lookupA k m = some v) :
    insertA k v m = m := by
  induction m with
  | nil => simp [lookupA] at h
  | cons e t ih =>
    obtain ⟨a, b⟩ := e
    by_cases h2 : a = k
    · rw [lookupA, if_pos h2] at h
      rw [insertA, if_pos h2, Option.some.inj h]
    · rw [lookupA, if_neg h2] at h
      rw [insertA, if_neg h2, ih h]

theorem lookupA_mem (k v : String) (m : AttrMap) (hm : keyNodup m)
    (h : (k, v) ∈ m) : lookupA k m = some v := by
  induction m with
  | nil => simp at h
  | cons e t ih =>
    obtain ⟨k', v'⟩ := e
    simp only [keyNodup, List.map_cons, List.nodup_cons] at hm
    rcases List.mem_cons.mp h with h1 | h1
    · obtain ⟨hk, hv⟩ := Prod.mk.injEq .. ▸ h1
      simp [lookupA, hk.symm, hv]
    · have hne : k' ≠ k := by
        intro hc
        subst hc
        exact hm.1 (List.mem_map.mpr ⟨(k', v), h1, rfl⟩)
      simp only [lookupA, if_neg hne]
      exact ih hm.2 h1

/-- The first loop of `merge_diff` (re-inserting a map's own entries into
itself) is the identity on key-unique maps. -/
theorem foldl_insert_self (m : AttrMap) (hm : keyNodup m) :
    m.foldl (fun acc kv => insertA kv.1 kv.2 acc) m = m := by
  suffices h : ∀ (l acc : AttrMap), (∀ kv ∈ l, lookupA kv.1 acc = some kv.2) →
      l.foldl (fun acc kv => insertA kv.1 kv.2 acc) acc = acc by
    apply h
    intro kv hkv
    exact lookupA_mem kv.1 kv.2 m hm hkv
  intro l
  induction l with
  | nil => intro acc _; rfl
  | cons e t ih =>
    intro acc hall
    have he : insertA e.1 e.2 acc = acc := insertA_self _ _ _ (hall e (List.mem_cons_self e t))
    simp only [List.foldl_cons, he]
    exact ih acc (fun kv hkv => hall kv (List.mem_cons_of_mem _ hkv))

theorem lookupA_applyAttrDiff_ne (k : String) (m : AttrMap)
    (e : String × ResourceAttrDiff) (h : e.1 ≠ k) :
    lookupA k (applyAttrDiff m e) = lookupA k m := by
  unfold applyAttrDiff
  split
  · exact lookupA_removeA_ne k e.1 m h
  · split
    · exact lookupA_insertA_ne k e.1 _ m h
    · exact lookupA_insertA_ne k e.1 _ m h

theorem keyNodup_applyAttrDiff (m : AttrMap) (e : String × ResourceAttrDiff)
    (hm : keyNodup m) : keyNodup (applyAttrDiff m e) := by
  unfold applyAttrDiff
  split
  · exact keyNodup_removeA e.1 m hm
  · split
    · exact keyNodup_insertA e.1 _ m hm
    · exact keyNodup_insertA e.1 _ m hm

theorem foldl_applyAttrDiff_not_mem (l : List (String × ResourceAttrDiff))
    (m : AttrMap) (k : String) (h : ∀ e ∈ l, e.1 ≠ k) :
    lookupA k (l.foldl applyAttrDiff m) = lookupA k m := by
  induction l generalizing m with
  | nil => rfl
  | cons e t ih =>
    rw [List.foldl_cons, ih _ (fun e' he' => h e' (List.mem_cons_of_mem _ he')),
      lookupA_applyAttrDiff_ne k m e (h e (List.mem_cons_self e t))]

theorem foldl_applyAttrDiff_mem (l : List (String × ResourceAttrDiff))
    (m : AttrMap) (k : String) (dv : ResourceAttrDiff)
    (hl : keyNodup l) (hm : keyNodup m) (hmem : (k, dv) ∈ l) :
    lookupA k (l.foldl applyAttrDiff m) =
      if dv.new_removed then none
      else if dv.new_computed then some YAMLET_UNKNOWN_VARIABLE_VALUE
      else some dv.new := by
  induction l generalizing m with
  | nil => simp at hmem
  | cons e t ih =>
    simp only [keyNodup, List.map_cons, List.nodup_cons] at hl
    rcases List.mem_cons.mp hmem with h1 | h1
    · subst h1
      have hrest : ∀ e' ∈ t, e'.1 ≠ k := by
        intro e' he' hc
        exact hl.1 (List.mem_map.mpr ⟨e', he', hc⟩)
      rw [List.foldl_cons, foldl_applyAttrDiff_not_mem t _ k hrest]
      unfold applyAttrDiff
      split
      · exact lookupA_removeA_self k m hm
      · split
        · exact lookupA_insertA_self k _ m
        · exact lookupA_insertA_self k _ m
    · rw [List.foldl_cons]
      exact ih (applyAttrDiff m e) hl.2 (keyNodup_applyAttrDiff m e hm) h1

/-- C1.  Merge precedence per diff entry: `new_removed` deletes the key
from the merged attributes regardless of `new`; otherwise `new_computed`
writes the reserved unknown-value sentinel regardless of `new`; otherwise
`new` is written verbatim.  The `keyNodup` hypotheses are the
`HashMap` / `BTreeMap` key-uniqueness invariants of the source maps. -/
theorem merge_diff_entry (s : InstanceState) (d : InstanceDiff) (k : String)
    (dv : ResourceAttrDiff) (hs : keyNodup s.attributes)
    (hd : keyNodup d.attributes) (hmem : (k, dv) ∈ d.attributes) :
    lookupA k (s.merge_diff d).attributes =
      if dv.new_removed then none
      else if dv.new_computed then some YAMLET_UNKNOWN_VARIABLE_VALUE
      else some dv.new := by
  unfold InstanceState.merge_diff
  simp only
  rw [foldl_insert_self s.attributes hs]
  exact foldl_applyAttrDiff_mem d.attributes s.attributes k dv hd hs hmem

/-- Witness for C1: a concrete state and diff exercising all three
precedence branches. -/
theorem merge_diff_entry_witness :
    lookupA "a"
        (InstanceState.merge_diff ⟨"i-1", [("a", "1"), ("b", "2"), ("c", "3")], []⟩
          ⟨[("a", ⟨"1", "x", false, true, false, false, .provided⟩),
            ("b", ⟨"2", "y", true, false, false, false, .computed⟩),
            ("d", ⟨"", "z", false, false, false, false, .provided⟩)], false, []⟩).attributes
      = none
    ∧ lookupA "b"
        (InstanceState.merge_diff ⟨"i-1", [("a", "1"), ("b", "2"), ("c", "3")], []⟩
          ⟨[("a", ⟨"1", "x", false, true, false, false, .provided⟩),
            ("b", ⟨"2", "y", true, false, false, false, .computed⟩),
            ("d", ⟨"", "z", false, false, false, false, .provided⟩)], false, []⟩).attributes
      = some YAMLET_UNKNOWN_VARIABLE_VALUE
    ∧ lookupA "d"
        (InstanceState.merge_diff ⟨"i-1", [("a", "1"), ("b", "2"), ("c", "3")], []⟩
          ⟨[("a", ⟨"1", "x", false, true, false, false, .provided⟩),
            ("b", ⟨"2", "y", true, false, false, false, .computed⟩),
            ("d", ⟨"", "z", false, false, false, false, .provided⟩)], false, []⟩).attributes
      = some "z" := by
  refine ⟨?_, ?_, ?_⟩
  · simpa using merge_diff_entry ⟨"i-1", [("a", "1"), ("b", "2"), ("c", "3")], []⟩
      ⟨[("a", ⟨"1", "x", false, true, false, false, .provided⟩),
        ("b", ⟨"2", "y", true, false, false, false, .computed⟩),
        ("d", ⟨"", "z", false, false, false, false, .provided⟩)], false, []⟩
      "a" ⟨"1", "x", false, true, false, false, .provided⟩
      (by decide) (by decide) (by decide)
  · simpa using merge_diff_entry ⟨"i-1", [("a", "1"), ("b", "2"), ("c", "3")], []⟩
      ⟨[("a", ⟨"1", "x", false, true, false, false, .provided⟩),
        ("b", ⟨"2", "y", true, false, false, false, .computed⟩),
        ("d", ⟨"", "z", false, false, false, false, .provided⟩)], false, []⟩
      "b" ⟨"2", "y", true, false, false, false, .computed⟩
      (by decide) (by decide) (by decide)
  · simpa using merge_diff_entry ⟨"i-1", [("a", "1"), ("b", "2"), ("c", "3")], []⟩
      ⟨[("a", ⟨"1", "x", false, true, false, false, .provided⟩),
        ("b", ⟨"2", "y", true, false, false, false, .computed⟩),
        ("d", ⟨"", "z", false, false, false, false, .provided⟩)], false, []⟩
      "d" ⟨"", "z", false, false, false, false, .provided⟩
      (by decide) (by decide) (by decide)

/-- C7.  Merge identity and frame on untouched keys: merging the empty
diff into `S` returns a state equal to `S`, and any key not named by the
diff keeps its prior value.  (`merge_diff` takes `&self` and builds a new
`InstanceState`; the embedding is a pure function, so the input state is
unchanged by construction.) -/
theorem merge_diff_empty_and_frame (s : InstanceState) (d : InstanceDiff)
    (k : String) (hs : keyNodup s.attributes) :
    s.merge_diff { attributes := [], destroy := false, identity := [] } = s
    ∧ ((∀ e ∈ d.attributes, e.1 ≠ k) →
        lookupA k (s.merge_diff d).attributes = lookupA k s.attributes) := by
  constructor
  · unfold InstanceState.merge_diff
    simp only [List.foldl_nil]
    rw [foldl_insert_self s.attributes hs]
  · intro h
    unfold InstanceState.merge_diff
    simp only
    rw [foldl_insert_self s.attributes hs]
    exact foldl_applyAttrDiff_not_mem d.attributes s.attributes k h

/-- Witness for C7 at a concrete state and diff. -/
theorem merge_diff_empty_and_frame_witness :
    InstanceState.merge_diff ⟨"i-2", [("x", "1"), ("y", "2")], [("ident", "v")]⟩
        { attributes := [], destroy := false, identity := [] }
      = ⟨"i-2", [("x", "1"), ("y", "2")], [("ident", "v")]⟩
    ∧ lookupA "y"
        (InstanceState.merge_diff ⟨"i-2", [("x", "1"), ("y", "2")], [("ident", "v")]⟩
          ⟨[("x", ⟨"1", "9", false, false, false, false, .provided⟩)], false, []⟩).attributes
      = lookupA "y" [("x", "1"), ("y", "2")] := by
  refine ⟨?_, ?_⟩
  · exact (merge_diff_empty_and_frame ⟨"i-2", [("x", "1"), ("y", "2")], [("ident", "v")]⟩
      ⟨[], false, []⟩ "y" (by decide)).1
  · exact (merge_diff_empty_and_frame ⟨"i-2", [("x", "1"), ("y", "2")], [("ident", "v")]⟩
      ⟨[("x", ⟨"1", "9", false, false, false, false, .provided⟩)], false, []⟩
      "y" (by decide)).2 (by decide)

/-- C10.  Frame of `merge_diff`: the merged state keeps the input state's
`id` and `identity` untouched, and the result does not depend on the
diff's `destroy` flag or identity-change map — only on its attribute
map. -/
theorem merge_diff_frame (s : InstanceState)
    (attrs : List (String × ResourceAttrDiff)) (b1 b2 : Bool) (i1 i2 : AttrMap) :
    (s.merge_diff ⟨attrs, b1, i1⟩).id = s.id
    ∧ (s.merge_diff ⟨attrs, b1, i1⟩).identity = s.identity
    ∧ s.merge_diff ⟨attrs, b1, i1⟩ = s.merge_diff ⟨attrs, b2, i2⟩ :=
  ⟨rfl, rfl, rfl⟩

/-! ## Convergence engine (`src/aws/internal/wait_and_refresh.rs`)

`StateChangeConfig::wait_until_state` is an async polling loop.  The
embedding makes the interaction with the environment explicit:

* state tokens (`T : PartialEq + ToString + Display`) are instantiated at
  `String`, matching every call site in the repository;
* the opaque `Box<dyn Any>` resource handle is modelled as a `Nat` tag
  (the engine never inspects it, only stores and returns it);
* each loop iteration consumes one `RefreshObs` from a trace: `dt` is
  the wall-clock time the refresh future would need to complete and
  `res` is what it would return (`Except String (Option (handle ×
  states))` mirrors `Result<Option<(Box<dyn Any>, Vec<T>)>, String>`);
* `tokio::time::timeout(d, fut).await.unwrap_or(Ok(None))` is modelled
  exactly: when `dt` exceeds the per-attempt deadline the attempt is
  flattened to `Ok(None)` and only the deadline's worth of time elapses;
* `tokio::time::sleep` is modelled as advancing elapsed time by exactly
  the requested duration;
* durations are `Nat` nanoseconds; `start_time.elapsed()` is the
  accumulated `elapsed` field of the loop state. -/

/-- `WaitError` (`src/aws/internal/wait_and_refresh.rs`). -/
inductive WaitError where
  | timeoutErr (last_state : String) (timeoutDur : Nat) (expected_states : List String)
  | notFound (retries : Nat)
  | unexpectedState (current_state : String) (expected_states : List String)
  | refreshError (msg : String)
deriving DecidableEq, Repr

/-- `StateChangeConfig` with the refresh function factored out (it is
supplied as the observation trace). -/
structure StateChangeConfig where
  target_state : List String
  pending_state : List String
  initial_delay : Nat
  timeout : Nat
  min_delay : Nat
  max_delay : Nat
  not_found_checks : Nat
deriving DecidableEq, Repr

deriving instance DecidableEq for Except

/-- One observation offered to a poll iteration: how long the refresh
future would need (`dt`) and what it would produce. -/
structure RefreshObs where
  dt : Nat
  res : Except String (Option (Nat × List String))
deriving DecidableEq, Repr

/-- The mutable locals of `wait_until_state`. -/
structure WaitState where
  elapsed : Nat
  not_found_count : Nat
  current_delay : Nat
  last_state : String
  last_resource : Option Nat
  iter : Nat
deriving DecidableEq, Repr

/-- The per-attempt refresh deadline cap, `Duration::from_secs(30)`, in
nanoseconds. -/
def refreshCap : Nat := 30 * 1000000000

/-- End-of-iteration backoff update (`if i % 3 == 2 { current_delay =
(current_delay * 2).min(self.max_delay) }`), for the just-finished
iteration number `i`. -/
def backoffStep (cfg : StateChangeConfig) (i d : Nat) : Nat :=
  if i % 3 = 2 then min (d * 2) cfg.max_delay else d

/-- Result of one loop iteration: the loop either returns
(`Result<Box<dyn Any>, WaitError>`, with `Except.ok none` standing for
the `Ok(Box::new(()))` of absent-convergence and `Except.ok (some h)`
for `Ok(resource)`) or keeps polling with updated locals. -/
inductive WaitOutcome where
  | finished (r : Except WaitError (Option Nat))
  | polling (s : WaitState)
deriving DecidableEq, Repr

/-- One iteration of the `loop` in `wait_until_state`, consuming one
observation. -/
def waitStep (cfg : StateChangeConfig) (s : WaitState) (o : RefreshObs) : WaitOutcome :=
  let i := s.iter + 1
  -- Check for timeout
  if s.elapsed ≥ cfg.timeout then
    .finished (.error (.timeoutErr s.last_state cfg.timeout cfg.target_state))
  else
    -- Refresh the resource state with timeout; `unwrap_or(Ok(None))`
    -- flattens an attempt that exceeds its deadline into `Ok(None)`
    let remaining := cfg.timeout - s.elapsed
    let perAttempt := min remaining refreshCap
    let refresh_result : Except String (Option (Nat × List String)) :=
      if o.dt > perAttempt then .ok none else o.res
    let dtUsed := min o.dt perAttempt
    match refresh_result with
    | .error _ => .finished (.error (.refreshError "Refresh timeout"))
    | .ok obs =>
      -- `last_state = current_state.join("\n")`, written out per branch
      -- (`current_state` is `vec![]` in the absent case)
      match obs with
      | none =>
        -- If we're waiting for the absence of a thing, return success
        if cfg.target_state = [] then
          .finished (.ok none)
        else
          -- Resource not found, increment counter
          let nf := s.not_found_count + 1
          if nf > cfg.not_found_checks then
            .finished (.error (.notFound nf))
          else
            .polling { elapsed := s.elapsed + dtUsed + s.current_delay
                       not_found_count := nf
                       current_delay := backoffStep cfg i s.current_delay
                       last_state := String.intercalate "\n" []
                       last_resource := s.last_resource
                       iter := i }
      | some (res, st) =>
        -- Resource found, reset not found counter, retain the handle
        if cfg.target_state = st then
          .finished (.ok (some res))
        else if cfg.pending_state ≠ st ∧ cfg.pending_state ≠ [] then
          .finished (.error (.unexpectedState (String.intercalate "\n" st)
            (cfg.target_state ++ cfg.pending_state)))
        else
          .polling { elapsed := s.elapsed + dtUsed + s.current_delay
                     not_found_count := 0
                     current_delay := backoffStep cfg i s.current_delay
                     last_state := String.intercalate "\n" st
                     last_resource := some res
                     iter := i }

/-- Loop state after the initial sleep, before the first iteration. -/
def initWaitState (cfg : StateChangeConfig) : WaitState :=
  { elapsed := cfg.initial_delay
    not_found_count := 0
    current_delay := cfg.min_delay
    last_state := ""
    last_resource := none
    iter := 0 }

/-- Run the loop over a finite observation trace; `polling s` means the
trace is exhausted with the loop still going. -/
def runWait (cfg : StateChangeConfig) (s : WaitState) : List RefreshObs → WaitOutcome
  | [] => .polling s
  | o :: rest =>
    match waitStep cfg s o with
    | .finished r => .finished r
    | .polling s' => runWait cfg s' rest

/-- `wait_until_state`, driven by an observation trace. -/
def wait_until_state (cfg : StateChangeConfig) (trace : List RefreshObs) : WaitOutcome :=
  runWait cfg (initWaitState cfg) trace

/-- `current_delay` after `n` completed loop iterations (i.e. the delay
slept during iteration `n + 1`), as a function of the configuration
alone: the backoff evolution does not depend on the observations. -/
def delayAt (cfg : StateChangeConfig) : Nat → Nat
  | 0 => cfg.min_delay
  | n + 1 => backoffStep cfg (n + 1) (delayAt cfg n)

/-- An absent observation: the refresh completes immediately and reports
the resource missing. -/
def absentObs : RefreshObs := ⟨0, .ok none⟩

/-- C2.  State-vector equality: an iteration whose refresh reports the
resource present returns converged (with the observed resource handle)
iff the observed state vector equals `target_state` as a whole vector. -/
theorem waitStep_converged_iff (cfg : StateChangeConfig) (s : WaitState)
    (o : RefreshObs) (r : Nat) (st : List String)
    (htime : s.elapsed < cfg.timeout)
    (hres : o.res = .ok (some (r, st)))
    (hdt : o.dt ≤ min (cfg.timeout - s.elapsed) refreshCap) :
    waitStep cfg s o = .finished (.ok (some r)) ↔ st = cfg.target_state := by
  unfold waitStep
  rw [if_neg (not_le.mpr htime)]
  simp only [if_neg (not_lt.mpr hdt), hres]
  constructor
  · intro h
    by_cases ht : cfg.target_state = st
    · exact ht.symm
    · rw [if_neg ht] at h
      split at h
      · simp at h
      · simp at h
  · intro h
    rw [if_pos h.symm]

/-- Witness for C2: target `["running"]` against observed
`["running", "extra"]` does not converge. -/
theorem waitStep_converged_iff_witness :
    waitStep ⟨["running"], ["pending"], 0, 1000, 5, 60, 20⟩
        (initWaitState ⟨["running"], ["pending"], 0, 1000, 5, 60, 20⟩)
        ⟨0, .ok (some (7, ["running", "extra"]))⟩
      ≠ .finished (.ok (some 7)) := by
  intro h
  exact absurd
    ((waitStep_converged_iff ⟨["running"], ["pending"], 0, 1000, 5, 60, 20⟩
        (initWaitState ⟨["running"], ["pending"], 0, 1000, 5, 60, 20⟩)
        ⟨0, .ok (some (7, ["running", "extra"]))⟩ 7 ["running", "extra"]
        (by decide) rfl (by decide)).mp h)
    (by decide)

/-- C3 (code behaviour at the failing input).  A refresh attempt whose
future needs longer than the per-attempt deadline
`min(remaining, 30s)` is flattened by `unwrap_or(Ok(None))` into an
`Ok(None)` observation: the iteration books a not-found and keeps
polling (here below the not-found threshold), and never produces a
`RefreshError` — whatever the refresh future would have returned. -/
theorem waitStep_deadline_exceeded (cfg : StateChangeConfig) (s : WaitState)
    (o : RefreshObs)
    (htarget : cfg.target_state ≠ [])
    (htime : s.elapsed < cfg.timeout)
    (hdt : min (cfg.timeout - s.elapsed) refreshCap < o.dt)
    (hcount : s.not_found_count + 1 ≤ cfg.not_found_checks) :
    waitStep cfg s o =
      .polling { elapsed := s.elapsed + min (cfg.timeout - s.elapsed) refreshCap
                    + s.current_delay
                 not_found_count := s.not_found_count + 1
                 current_delay := backoffStep cfg (s.iter + 1) s.current_delay
                 last_state := ""
                 last_resource := s.last_resource
                 iter := s.iter + 1 }
    ∧ ∀ m, waitStep cfg s o ≠ .finished (.error (.refreshError m)) := by
  have hstep : waitStep cfg s o =
      .polling { elapsed := s.elapsed + min (cfg.timeout - s.elapsed) refreshCap
                    + s.current_delay
                 not_found_count := s.not_found_count + 1
                 current_delay := backoffStep cfg (s.iter + 1) s.current_delay
                 last_state := ""
                 last_resource := s.last_resource
                 iter := s.iter + 1 } := by
    unfold waitStep
    rw [if_neg (not_le.mpr htime)]
    simp only [if_pos hdt, if_neg htarget, if_neg (not_lt.mpr hcount)]
    rw [Nat.min_eq_right (le_of_lt hdt)]
    rfl
  exact ⟨hstep, fun m hc => by rw [hstep] at hc; exact absurd hc (by simp)⟩

/-- Witness for C3: a 50 s refresh attempt against the 30 s cap. -/
theorem waitStep_deadline_exceeded_witness :
    waitStep ⟨["running"], [], 0, 60000000000, 5, 60, 3⟩
        (initWaitState ⟨["running"], [], 0, 60000000000, 5, 60, 3⟩)
        ⟨50000000000, .ok (some (9, ["running"]))⟩
      = .polling { elapsed := 30000000005
                   not_found_count := 1
                   current_delay := 5
                   last_state := ""
                   last_resource := none
                   iter := 1 } := by
  have h := waitStep_deadline_exceeded ⟨["running"], [], 0, 60000000000, 5, 60, 3⟩
    (initWaitState ⟨["running"], [], 0, 60000000000, 5, 60, 3⟩)
    ⟨50000000000, .ok (some (9, ["running"]))⟩
    (by decide) (by decide) (by decide) (by decide)
  simpa using h.1

/-- C5.  Absent-as-target: with an empty `target_state`, an absent
observation concludes absent-converged immediately (`Ok(Box::new(()))`,
modelled `.ok none`), whatever the current not-found count. -/
theorem waitStep_absent_target_empty (cfg : StateChangeConfig) (s : WaitState)
    (o : RefreshObs)
    (htarget : cfg.target_state = [])
    (htime : s.elapsed < cfg.timeout)
    (hres : o.res = .ok none) :
    waitStep cfg s o = .finished (.ok none) := by
  unfold waitStep
  rw [if_neg (not_le.mpr htime)]
  by_cases hdt : o.dt > min (cfg.timeout - s.elapsed) refreshCap
  · simp only [if_pos hdt, if_pos htarget]
  · simp only [if_neg hdt, hres, if_pos htarget]

/-- Witness for C5: converges on the very first absent observation even
with the not-found counter already past the threshold. -/
theorem waitStep_absent_target_empty_witness :
    waitStep ⟨[], ["pending"], 0, 1000, 5, 60, 20⟩
        ⟨0, 25, 5, "", none, 0⟩ absentObs = .finished (.ok none) :=
  waitStep_absent_target_empty ⟨[], ["pending"], 0, 1000, 5, 60, 20⟩
    ⟨0, 25, 5, "", none, 0⟩ absentObs rfl (by decide) rfl

theorem backoffStep_le (cfg : StateChangeConfig) (i d : Nat)
    (hd : d ≤ max cfg.min_delay cfg.max_delay) :
    backoffStep cfg i d ≤ max cfg.min_delay cfg.max_delay := by
  unfold backoffStep
  split
  · exact le_trans (min_le_right _ _) (le_max_right _ _)
  · exact hd

/-- An absent observation below the not-found threshold books one
not-found and keeps polling. -/
theorem waitStep_absent_polling (cfg : StateChangeConfig) (s : WaitState)
    (htarget : cfg.target_state ≠ [])
    (htime : s.elapsed < cfg.timeout)
    (hcount : s.not_found_count + 1 ≤ cfg.not_found_checks) :
    waitStep cfg s absentObs =
      .polling { elapsed := s.elapsed + s.current_delay
                 not_found_count := s.not_found_count + 1
                 current_delay := backoffStep cfg (s.iter + 1) s.current_delay
                 last_state := ""
                 last_resource := s.last_resource
                 iter := s.iter + 1 } := by
  unfold waitStep
  rw [if_neg (not_le.mpr htime)]
  simp only [absentObs, ite_self]
  rw [if_neg htarget, if_neg (not_lt.mpr hcount)]
  simp only [Nat.zero_min, Nat.add_zero]
  rfl

/-- The absent observation that takes the counter past the threshold
fails with `NotFound { retries: not_found_checks + 1 }`. -/
theorem waitStep_absent_exhausted (cfg : StateChangeConfig) (s : WaitState)
    (htarget : cfg.target_state ≠ [])
    (htime : s.elapsed < cfg.timeout)
    (hcount : s.not_found_count = cfg.not_found_checks) :
    waitStep cfg s absentObs =
      .finished (.error (.notFound (cfg.not_found_checks + 1))) := by
  unfold waitStep
  rw [if_neg (not_le.mpr htime)]
  simp only [absentObs, ite_self]
  rw [if_neg htarget]
  simp only [hcount, gt_iff_lt, if_pos (Nat.lt_succ_self cfg.not_found_checks)]

theorem runWait_cons (cfg : StateChangeConfig) (s : WaitState) (o : RefreshObs)
    (t : List RefreshObs) :
    runWait cfg s (o :: t) =
      match waitStep cfg s o with
      | .finished r => .finished r
      | .polling s' => runWait cfg s' t := rfl

theorem runWait_append (cfg : StateChangeConfig) (s : WaitState)
    (t1 t2 : List RefreshObs) :
    runWait cfg s (t1 ++ t2) =
      match runWait cfg s t1 with
      | .finished r => .finished r
      | .polling s' => runWait cfg s' t2 := by
  induction t1 generalizing s with
  | nil => rfl
  | cons o t ih =>
    rw [List.cons_append, runWait, runWait]
    cases waitStep cfg s o with
    | finished r => rfl
    | polling s' => exact ih s'

/-- Running `k` consecutive absent observations while the counter stays
within the threshold keeps polling, adds `k` to the counter, and keeps
the delay and elapsed-time invariants needed to iterate further. -/
theorem runWait_absent_polling (cfg : StateChangeConfig)
    (htarget : cfg.target_state ≠ []) :
    ∀ (k : Nat) (s : WaitState),
      s.current_delay ≤ max cfg.min_delay cfg.max_delay →
      s.not_found_count + k ≤ cfg.not_found_checks →
      s.elapsed + k * max cfg.min_delay cfg.max_delay
          < cfg.timeout + max cfg.min_delay cfg.max_delay →
      ∃ s', runWait cfg s (List.replicate k absentObs) = .polling s'
        ∧ s'.not_found_count = s.not_found_count + k
        ∧ s'.current_delay ≤ max cfg.min_delay cfg.max_delay
        ∧ s'.elapsed ≤ s.elapsed + k * max cfg.min_delay cfg.max_delay := by
  intro k
  induction k with
  | zero =>
    intro s _ _ _
    exact ⟨s, rfl, rfl, by assumption, Nat.le_add_right _ _⟩
  | succ k ih =>
    intro s hdelay hcount htime
    have hmul : (k + 1) * max cfg.min_delay cfg.max_delay
        = k * max cfg.min_delay cfg.max_delay + max cfg.min_delay cfg.max_delay :=
      Nat.succ_mul k _
    have hM : s.elapsed + k * max cfg.min_delay cfg.max_delay < cfg.timeout := by
      omega
    have htime1 : s.elapsed < cfg.timeout :=
      lt_of_le_of_lt (Nat.le_add_right _ _) hM
    have hcount1 : s.not_found_count + 1 ≤ cfg.not_found_checks := by omega
    rw [List.replicate_succ, runWait,
      waitStep_absent_polling cfg s htarget htime1 hcount1]
    obtain ⟨s', hrun, hnf, hd, he⟩ := ih
      { elapsed := s.elapsed + s.current_delay
        not_found_count := s.not_found_count + 1
        current_delay := backoffStep cfg (s.iter + 1) s.current_delay
        last_state := ""
        last_resource := s.last_resource
        iter := s.iter + 1 }
      (backoffStep_le cfg (s.iter + 1) s.current_delay hdelay)
      (by show s.not_found_count + 1 + k ≤ cfg.not_found_checks; omega)
      (by
        show s.elapsed + s.current_delay + k * max cfg.min_delay cfg.max_delay
            < cfg.timeout + max cfg.min_delay cfg.max_delay
        omega)
    refine ⟨s', hrun, ?_, hd, ?_⟩
    · have hnf' : s'.not_found_count = s.not_found_count + 1 + k := hnf
      omega
    · have he' : s'.elapsed
          ≤ s.elapsed + s.current_delay + k * max cfg.min_delay cfg.max_delay := he
      omega

/-- C4.  Not-found threshold with `not_found_checks = N` and a non-empty
target: `N` consecutive absent observations leave the loop polling with
the counter at `N`; the `(N+1)`-st consecutive absent observation fails
with `NotFound { retries: N + 1 }`; and any iteration that finds the
resource and keeps polling resets the counter to `0`.  The timing
hypothesis keeps the overall deadline out of the way for the first
`N + 1` iterations. -/
theorem not_found_threshold (cfg : StateChangeConfig)
    (htarget : cfg.target_state ≠ [])
    (htime : cfg.initial_delay
        + (cfg.not_found_checks + 1) * max cfg.min_delay cfg.max_delay
        < cfg.timeout) :
    (∃ s', wait_until_state cfg (List.replicate cfg.not_found_checks absentObs)
          = .polling s'
        ∧ s'.not_found_count = cfg.not_found_checks)
    ∧ wait_until_state cfg (List.replicate (cfg.not_found_checks + 1) absentObs)
        = .finished (.error (.notFound (cfg.not_found_checks + 1)))
    ∧ (∀ (s : WaitState) (o : RefreshObs) (r : Nat) (st : List String),
        o.res = .ok (some (r, st)) →
        o.dt ≤ min (cfg.timeout - s.elapsed) refreshCap →
        s.elapsed < cfg.timeout →
        st ≠ cfg.target_state →
        (cfg.pending_state = st ∨ cfg.pending_state = []) →
        ∃ s', waitStep cfg s o = .polling s' ∧ s'.not_found_count = 0) := by
  have hM0 : ∀ k, k ≤ cfg.not_found_checks + 1 →
      cfg.initial_delay + k * max cfg.min_delay cfg.max_delay < cfg.timeout := by
    intro k hk
    refine lt_of_le_of_lt ?_ htime
    have : k * max cfg.min_delay cfg.max_delay
        ≤ (cfg.not_found_checks + 1) * max cfg.min_delay cfg.max_delay :=
      Nat.mul_le_mul_right _ hk
    omega
  refine ⟨?_, ?_, ?_⟩
  · obtain ⟨s', hrun, hnf, _, _⟩ := runWait_absent_polling cfg htarget
      cfg.not_found_checks (initWaitState cfg) (le_max_left _ _)
      (by simp [initWaitState]) (by
        have := hM0 cfg.not_found_checks (Nat.le_succ _)
        simp only [initWaitState]
        omega)
    exact ⟨s', hrun, by simpa [initWaitState] using hnf⟩
  · obtain ⟨s', hrun, hnf, _, he⟩ := runWait_absent_polling cfg htarget
      cfg.not_found_checks (initWaitState cfg) (le_max_left _ _)
      (by simp [initWaitState]) (by
        have := hM0 cfg.not_found_checks (Nat.le_succ _)
        simp only [initWaitState]
        omega)
    rw [wait_until_state, List.replicate_succ', runWait_append, hrun]
    have htime' : s'.elapsed < cfg.timeout := by
      refine lt_of_le_of_lt he ?_
      have h1 := hM0 cfg.not_found_checks (Nat.le_succ _)
      have h2 : (initWaitState cfg).elapsed = cfg.initial_delay := rfl
      omega
    have hnf' : s'.not_found_count = cfg.not_found_checks := by
      have h1 : s'.not_found_count
          = (initWaitState cfg).not_found_count + cfg.not_found_checks := hnf
      simpa [initWaitState] using h1
    show runWait cfg s' [absentObs]
        = .finished (.error (.notFound (cfg.not_found_checks + 1)))
    rw [runWait_cons, waitStep_absent_exhausted cfg s' htarget htime' hnf']
  · intro s o r st hres hdt htime1 hst hpending
    refine ⟨{ elapsed := s.elapsed + min o.dt (min (cfg.timeout - s.elapsed) refreshCap)
                  + s.current_delay
              not_found_count := 0
              current_delay := backoffStep cfg (s.iter + 1) s.current_delay
              last_state := String.intercalate "\n" st
              last_resource := some r
              iter := s.iter + 1 }, ?_, rfl⟩
    unfold waitStep
    rw [if_neg (not_le.mpr htime1)]
    simp only [if_neg (not_lt.mpr hdt), hres]
    rw [if_neg (fun hc => hst hc.symm), if_neg (by
      intro hc
      rcases hpending with hp | hp
      · exact hc.1 hp
      · exact hc.2 hp)]

/-- Witness for C4 with `not_found_checks = 2`: two absent observations
keep polling at count `2`, the third fails with `NotFound(3)`, and a
present pending observation resets the counter. -/
theorem not_found_threshold_witness :
    (∃ s', wait_until_state ⟨["running"], ["pending"], 0, 1000, 5, 60, 2⟩
          (List.replicate 2 absentObs) = .polling s' ∧ s'.not_found_count = 2)
    ∧ wait_until_state ⟨["running"], ["pending"], 0, 1000, 5, 60, 2⟩
        (List.replicate 3 absentObs)
        = .finished (.error (.notFound 3))
    ∧ (∃ s', waitStep ⟨["running"], ["pending"], 0, 1000, 5, 60, 2⟩
          ⟨0, 2, 5, "", none, 0⟩ ⟨0, .ok (some (4, ["pending"]))⟩ = .polling s'
        ∧ s'.not_found_count = 0) := by
  have h := not_found_threshold ⟨["running"], ["pending"], 0, 1000, 5, 60, 2⟩
    (by decide) (by decide)
  exact ⟨h.1, h.2.1, h.2.2 ⟨0, 2, 5, "", none, 0⟩ ⟨0, .ok (some (4, ["pending"]))⟩
    4 ["pending"] rfl (by decide) (by decide) (by decide) (Or.inl rfl)⟩

/-- Whenever an iteration keeps polling, the new `current_delay` is the
backoff update of the old one and the iteration counter advances by
one — independently of what was observed. -/
theorem waitStep_polling_delay (cfg : StateChangeConfig) (s : WaitState)
    (o : RefreshObs) (s' : WaitState) (h : waitStep cfg s o = .polling s') :
    s'.current_delay = backoffStep cfg (s.iter + 1) s.current_delay
    ∧ s'.iter = s.iter + 1 := by
  unfold waitStep at h
  dsimp only at h
  repeat' split at h
  all_goals
    first
      | exact WaitOutcome.noConfusion h
      | (injection h with h1; exact h1 ▸ ⟨rfl, rfl⟩)

/-- Along any run of the loop, `current_delay` is determined by the
iteration count alone, via `delayAt`. -/
theorem runWait_polling_delayAt (cfg : StateChangeConfig) :
    ∀ (t : List RefreshObs) (s s' : WaitState),
      s.current_delay = delayAt cfg s.iter →
      runWait cfg s t = .polling s' →
      s'.current_delay = delayAt cfg s'.iter := by
  intro t
  induction t with
  | nil =>
    intro s s' hs h
    obtain rfl := (WaitOutcome.polling.injEq .. |>.mp h)
    exact hs
  | cons o t ih =>
    intro s s' hs h
    rw [runWait_cons] at h
    cases hstep : waitStep cfg s o with
    | finished r => rw [hstep] at h; simp at h
    | polling s1 =>
      rw [hstep] at h
      obtain ⟨hd, hi⟩ := waitStep_polling_delay cfg s o s1 hstep
      refine ih s1 s' ?_ h
      rw [hd, hi, hs]
      rfl

/-- C6 (amended).  Backoff policy: the delay sequence of the loop starts
at `min_delay`; it changes only at every third iteration, where it is
set to the doubled value capped at `max_delay`; and provided
`min_delay ≤ max_delay` it stays within `[min_delay, max_delay]`.  The
first conjunct ties `delayAt` to the actual loop state. -/
theorem backoff_policy (cfg : StateChangeConfig) :
    (∀ (trace : List RefreshObs) (s' : WaitState),
        wait_until_state cfg trace = .polling s' →
        s'.current_delay = delayAt cfg s'.iter)
    ∧ delayAt cfg 0 = cfg.min_delay
    ∧ (∀ n, (n + 1) % 3 ≠ 2 → delayAt cfg (n + 1) = delayAt cfg n)
    ∧ (∀ n, (n + 1) % 3 = 2 →
        delayAt cfg (n + 1) = min (delayAt cfg n * 2) cfg.max_delay)
    ∧ (cfg.min_delay ≤ cfg.max_delay →
        ∀ n, cfg.min_delay ≤ delayAt cfg n ∧ delayAt cfg n ≤ cfg.max_delay) := by
  refine ⟨?_, rfl, ?_, ?_, ?_⟩
  · intro trace s' h
    exact runWait_polling_delayAt cfg trace (initWaitState cfg) s' rfl h
  · intro n hn
    show backoffStep cfg (n + 1) (delayAt cfg n) = delayAt cfg n
    rw [backoffStep, if_neg hn]
  · intro n hn
    show backoffStep cfg (n + 1) (delayAt cfg n) = _
    rw [backoffStep, if_pos hn]
  · intro hminmax n
    induction n with
    | zero => exact ⟨le_refl _, hminmax⟩
    | succ n ih =>
      show cfg.min_delay ≤ backoffStep cfg (n + 1) (delayAt cfg n)
          ∧ backoffStep cfg (n + 1) (delayAt cfg n) ≤ cfg.max_delay
      rw [backoffStep]
      split
      · rcases le_total (delayAt cfg n * 2) cfg.max_delay with h | h
        · rw [min_eq_left h]
          constructor
          · have := ih.1
            omega
          · exact h
        · rw [min_eq_right h]
          exact ⟨hminmax, le_refl _⟩
      · exact ih

/-- Counterexample for C6 as stated: with `min_delay = 2 > 1 =
max_delay`, the delay of the very first iteration already exceeds
`max_delay`, so the bounds do not hold for every configuration. -/
theorem backoff_policy_counterexample :
    ¬ (delayAt (⟨["running"], [], 0, 1000, 2, 1, 20⟩ : StateChangeConfig) 0
        ≤ (⟨["running"], [], 0, 1000, 2, 1, 20⟩ : StateChangeConfig).max_delay) := by
  decide

/-- Witness for C6 at a concrete configuration (`min_delay = 5`,
`max_delay = 60`): the delay sequence, its change points, its bounds,
and its agreement with the loop state after one real iteration. -/
theorem backoff_policy_witness :
    delayAt (⟨["r"], [], 0, 1000, 5, 60, 3⟩ : StateChangeConfig) 0 = 5
    ∧ delayAt (⟨["r"], [], 0, 1000, 5, 60, 3⟩ : StateChangeConfig) 1
        = delayAt (⟨["r"], [], 0, 1000, 5, 60, 3⟩ : StateChangeConfig) 0
    ∧ delayAt (⟨["r"], [], 0, 1000, 5, 60, 3⟩ : StateChangeConfig) 2
        = min (delayAt (⟨["r"], [], 0, 1000, 5, 60, 3⟩ : StateChangeConfig) 1 * 2) 60
    ∧ (5 ≤ delayAt (⟨["r"], [], 0, 1000, 5, 60, 3⟩ : StateChangeConfig) 7
        ∧ delayAt (⟨["r"], [], 0, 1000, 5, 60, 3⟩ : StateChangeConfig) 7 ≤ 60)
    ∧ (WaitState.mk 5 1 5 "" none 1).current_delay
        = delayAt (⟨["r"], [], 0, 1000, 5, 60, 3⟩ : StateChangeConfig) 1 := by
  have h := backoff_policy (⟨["r"], [], 0, 1000, 5, 60, 3⟩ : StateChangeConfig)
  refine ⟨h.2.1, h.2.2.1 0 (by decide), h.2.2.2.1 1 (by decide),
    h.2.2.2.2 (by decide) 7, ?_⟩
  exact h.1 [absentObs] (WaitState.mk 5 1 5 "" none 1) (by decide)

/-! ## Schema validation (`crates/plugin-sdk/src/schema/schema.rs`)

`Schema` is embedded with the two fields `validate_schema` reads:
`value_type` and `elem`.  The remaining configuration fields
(`schema_version`, `min_items`/`max_items`, `default`, the callback
slots, the cross-field constraint lists and the boolean flags) are
consulted by no function modelled here.  `Vec<Schema>` and
`BTreeMap<String, Schema>` appear as the mutual list types `SchemaSeq` /
`SchemaFields`, the latter carrying its entries in the `BTreeMap`'s
ascending-key iteration order.  The `f64` payload of a `Float` elem is
never inspected by validation and is not modelled. -/

/-- `ValueType`. -/
inductive ValueType where
  | typeString
  | typeInt
  | typeFloat
  | typeBool
  | typeList
  | typeObject
deriving DecidableEq, Repr

/-- `SchemaValidationError::TypeMismatch` carrying its formatted
message. -/
inductive SchemaValidationError where
  | typeMismatch (msg : String)
deriving DecidableEq, Repr

mutual
/-- `Schema`, restricted to the fields read by validation. -/
inductive Schema where
  | mk (value_type : ValueType) (elem : SchemaElem)

/-- `SchemaElem`. -/
inductive SchemaElem where
  | str (s : String)
  | int (n : Int)
  | float
  | bool (b : Bool)
  | list (elems : SchemaSeq)
  | object (fields : SchemaFields)
  | null

/-- `Vec<Schema>`. -/
inductive SchemaSeq where
  | nil
  | cons (head : Schema) (tail : SchemaSeq)

/-- `BTreeMap<String, Schema>` as its ascending-key entry sequence. -/
inductive SchemaFields where
  | nil
  | cons (key : String) (val : Schema) (tail : SchemaFields)
end

/-- `SchemaElem::type_name`. -/
def SchemaElem.type_name : SchemaElem → String
  | .str _ => "string"
  | .int _ => "int"
  | .float => "float"
  | .bool _ => "bool"
  | .list _ => "list"
  | .object _ => "object"
  | .null => "null"

/-- Rust's `{:?}` rendering of a `&str` (the names above need no
escaping, so it just wraps the string in double quotes). -/
def dbgStr (s : String) : String := "\"" ++ s ++ "\""

mutual
/-- `Schema::validate_value_type`. -/
def Schema.validate_value_type : Schema → String → Except SchemaValidationError Unit
  | .mk vt elem, path =>
    match vt with
    | .typeString =>
      match elem with
      | .str _ => .ok ()
      | e => .error (.typeMismatch
          ("Expected string type but found " ++ dbgStr e.type_name ++ " for " ++ path))
    | .typeInt =>
      match elem with
      | .int _ => .ok ()
      | e => .error (.typeMismatch
          ("Expected int type but found " ++ dbgStr e.type_name ++ " for " ++ path))
    | .typeFloat =>
      match elem with
      | .float => .ok ()
      | e => .error (.typeMismatch
          ("Expected float type but found " ++ dbgStr e.type_name ++ " for " ++ path))
    | .typeBool =>
      match elem with
      | .bool _ => .ok ()
      | e => .error (.typeMismatch
          ("Expected bool type but found " ++ dbgStr e.type_name ++ " for " ++ path))
    | .typeList =>
      match elem with
      | .list schemas => validateSeq schemas path 0
      | e => .error (.typeMismatch
          ("Expected list type but found " ++ dbgStr e.type_name ++ " for " ++ path))
    | .typeObject =>
      match elem with
      | .object fields => validateFields fields path
      -- the source's only mismatch message without a `for {path}` part
      | e => .error (.typeMismatch
          ("Expected object type but found " ++ dbgStr e.type_name))

/-- The `for (i, schema) in schemas.iter().enumerate()` loop, with the
`?` early return. -/
def validateSeq : SchemaSeq → String → Nat → Except SchemaValidationError Unit
  | .nil, _, _ => .ok ()
  | .cons s rest, path, i =>
    match s.validate_value_type (path ++ "." ++ toString i) with
    | .error e => .error e
    | .ok _ => validateSeq rest path (i + 1)

/-- The `for (key, schema) in map` loop, with the `?` early return. -/
def validateFields : SchemaFields → String → Except SchemaValidationError Unit
  | .nil, _ => .ok ()
  | .cons k s rest, path =>
    match s.validate_value_type (path ++ "." ++ k) with
    | .error e => .error e
    | .ok _ => validateFields rest path
end

/-- `Schema::validate_schema`: validate from the empty root path. -/
def Schema.validate_schema (s : Schema) : Except SchemaValidationError Unit :=
  match s.validate_value_type "" with
  | .error e => .error e
  | .ok _ => .ok ()

def SchemaSeq.length : SchemaSeq → Nat
  | .nil => 0
  | .cons _ t => t.length + 1

def SchemaSeq.append : SchemaSeq → SchemaSeq → SchemaSeq
  | .nil, l => l
  | .cons s t, l => .cons s (t.append l)

def SchemaFields.append : SchemaFields → SchemaFields → SchemaFields
  | .nil, l => l
  | .cons k s t, l => .cons k s (t.append l)

/-- First-mismatch abort inside a list schema: if a prefix validates and
the next element fails, the whole sequence fails with exactly that
element's error, whatever comes after it. -/
theorem validateSeq_append_err (pre : SchemaSeq) (path : String) (i : Nat)
    (bad : Schema) (rest : SchemaSeq) (e : SchemaValidationError)
    (hpre : validateSeq pre path i = .ok ())
    (hbad : bad.validate_value_type (path ++ "." ++ toString (i + pre.length))
        = .error e) :
    validateSeq (pre.append (.cons bad rest)) path i = .error e := by
  match pre with
  | .nil =>
    have hbad' : bad.validate_value_type (path ++ "." ++ toString i) = .error e := hbad
    show validateSeq (.cons bad rest) path i = .error e
    rw [validateSeq, hbad']
  | .cons hd tl =>
    rw [validateSeq] at hpre
    cases hh : hd.validate_value_type (path ++ "." ++ toString i) with
    | error e' => rw [hh] at hpre; exact absurd hpre (by simp)
    | ok v =>
      rw [hh] at hpre
      show validateSeq (.cons hd (tl.append (.cons bad rest))) path i = .error e
      rw [validateSeq, hh]
      refine validateSeq_append_err tl path (i + 1) bad rest e hpre ?_
      have hbad' : bad.validate_value_type
          (path ++ "." ++ toString (i + (tl.length + 1))) = .error e := hbad
      have harith : i + (tl.length + 1) = i + 1 + tl.length := by omega
      rw [harith] at hbad'
      exact hbad'

/-- First-mismatch abort inside an object schema: if a prefix of the
fields validates and the next field fails, the whole object fails with
exactly that field's error, whatever comes after it. -/
theorem validateFields_append_err (pre : SchemaFields) (path : String)
    (k : String) (bad : Schema) (rest : SchemaFields)
    (e : SchemaValidationError)
    (hpre : validateFields pre path = .ok ())
    (hbad : bad.validate_value_type (path ++ "." ++ k) = .error e) :
    validateFields (pre.append (.cons k bad rest)) path = .error e := by
  match pre with
  | .nil =>
    show validateFields (.cons k bad rest) path = .error e
    rw [validateFields, hbad]
  | .cons key hd tl =>
    rw [validateFields] at hpre
    cases hh : hd.validate_value_type (path ++ "." ++ key) with
    | error e' => rw [hh] at hpre; exact absurd hpre (by simp)
    | ok v =>
      rw [hh] at hpre
      show validateFields (.cons key hd (tl.append (.cons k bad rest))) path = .error e
      rw [validateFields, hh]
      exact validateFields_append_err tl path k bad rest e hpre hbad

/-- C8 (amended).  `validate_schema` accepts a String-typed schema with
a String elem and rejects one with an Int elem; it recurses into list
elements (dotted index paths) and object fields (dotted key paths),
aborting at the first mismatch whatever follows it; mismatch messages
carry the dotted path — except when the expected type is Object, whose
message omits the path. -/
theorem validate_schema_spec :
    (∀ s : String, (Schema.mk .typeString (.str s)).validate_schema = .ok ())
    ∧ (∀ n : Int, (Schema.mk .typeString (.int n)).validate_schema
        = .error (.typeMismatch "Expected string type but found \"int\" for "))
    ∧ (∀ (path : String) (i : Nat) (pre : SchemaSeq) (bad : Schema)
        (rest : SchemaSeq) (e : SchemaValidationError),
        validateSeq pre path i = .ok () →
        bad.validate_value_type (path ++ "." ++ toString (i + pre.length)) = .error e →
        validateSeq (pre.append (.cons bad rest)) path i = .error e)
    ∧ (∀ (path : String) (pre : SchemaFields) (k : String) (bad : Schema)
        (rest : SchemaFields) (e : SchemaValidationError),
        validateFields pre path = .ok () →
        bad.validate_value_type (path ++ "." ++ k) = .error e →
        validateFields (pre.append (.cons k bad rest)) path = .error e)
    ∧ (∀ (path : String) (e : SchemaElem), (∀ f, e ≠ .object f) →
        (Schema.mk .typeObject e).validate_value_type path
          = .error (.typeMismatch
              ("Expected object type but found " ++ dbgStr e.type_name))) := by
  refine ⟨fun _ => rfl, fun _ => rfl, ?_, ?_, ?_⟩
  · intro path i pre bad rest e hpre hbad
    exact validateSeq_append_err pre path i bad rest e hpre hbad
  · intro path pre k bad rest e hpre hbad
    exact validateFields_append_err pre path k bad rest e hpre hbad
  · intro path e he
    cases e with
    | object f => exact absurd rfl (he f)
    | str s => rfl
    | int n => rfl
    | float => rfl
    | bool b => rfl
    | list l => rfl
    | null => rfl

/-- Counterexample for C8 as stated: a nested Object-typed schema at
dotted location `.k` whose elem is an Int produces a mismatch message
that does not contain the path `.k` at all. -/
theorem validate_schema_object_path_counterexample :
    Schema.validate_schema
        (.mk .typeObject (.object (.cons "k" (.mk .typeObject (.int 5)) .nil)))
      = .error (.typeMismatch "Expected object type but found \"int\"")
    ∧ ¬ List.IsInfix ".k".toList
        "Expected object type but found \"int\"".toList :=
  ⟨rfl, by decide⟩

/-- Witness for C8: the accept/reject pair, a first mismatch inside a
list (path `.1`), a first mismatch inside an object (path `.kk`), and
a concrete Object-typed mismatch with its path-less message. -/
theorem validate_schema_spec_witness :
    (Schema.mk .typeString (.str "abc")).validate_schema = .ok ()
    ∧ (Schema.mk .typeString (.int 5)).validate_schema
        = .error (.typeMismatch "Expected string type but found \"int\" for ")
    ∧ validateSeq
        ((SchemaSeq.cons (.mk .typeString (.str "x")) .nil).append
          (.cons (.mk .typeString (.int 3)) .nil)) "" 0
        = .error (.typeMismatch "Expected string type but found \"int\" for .1")
    ∧ validateFields
        ((SchemaFields.cons "aa" (.mk .typeBool (.bool true)) .nil).append
          (.cons "kk" (.mk .typeInt (.str "oops")) .nil)) ""
        = .error (.typeMismatch "Expected int type but found \"string\" for .kk")
    ∧ (Schema.mk .typeObject (.int 5)).validate_value_type ".k"
        = .error (.typeMismatch "Expected object type but found \"int\"") := by
  obtain ⟨h1, h2, h3, h4, h5⟩ := validate_schema_spec
  exact ⟨h1 "abc", h2 5,
    h3 "" 0 (.cons (.mk .typeString (.str "x")) .nil) (.mk .typeString (.int 3))
      .nil _ rfl rfl,
    h4 "" (.cons "aa" (.mk .typeBool (.bool true)) .nil) "kk"
      (.mk .typeInt (.str "oops")) .nil _ rfl rfl,
    h5 ".k" (.int 5) (fun f h => by cases h)⟩

/-! ## JSON ⇄ protobuf value conversion
(`json_to_pb_value` in `crates/yamlet-core/src/provider/mod.rs` and,
identically, `crates/aws-provider/src/lib.rs`; `pb_value_to_json` /
`pb_struct_to_json` in `crates/aws-provider/src/lib.rs`)

`serde_json::Value` (default build) stores a number as one of three
variants — `u64`, `i64` (negative values), or `f64` — and its equality
compares equal variants only: an integer-represented `1` and a
float-represented `1.0` are *not* equal values.  The embedding models a
finite `f64` as an exact rational: the only number operations the
conversions perform are moving a stored `f64` around unchanged and
casting an integer to `f64` (exact within the claim's `2^53` exemption),
so no rounding behaviour is hidden by this choice.  `prost_types`'
`Struct` field map and `serde_json`'s object map are both ordered
(`BTreeMap`); the embedding carries their entry lists in iteration
order, which both conversion directions preserve entry-by-entry. -/

/-- `serde_json::Number`'s internal representation. -/
inductive JNumber where
  | posInt (n : Nat)
  | negInt (n : Int)
  | float (q : ℚ)
deriving DecidableEq, Repr

/-- `serde_json::Value`. -/
inductive Json where
  | null
  | bool (b : Bool)
  | num (n : JNumber)
  | str (s : String)
  | arr (elems : List Json)
  | obj (fields : List (String × Json))

/-- `prost_types::value::Kind`; a `prost_types::Value` is its optional
`kind` field, and a `Struct` is carried as its field-entry list. -/
inductive PbKind where
  | nullValue (n : Int)
  | numberValue (q : ℚ)
  | stringValue (s : String)
  | boolValue (b : Bool)
  | structValue (fields : List (String × Option PbKind))
  | listValue (values : List (Option PbKind))

/-- `prost_types::Value` (its single `kind : Option<Kind>` field). -/
abbrev PbValue := Option PbKind

/-- `Number::as_f64` (total on all three variants; the integer casts are
exact within the claim's `2^53` exemption, so `unwrap_or(0.0)` never
fires). -/
def JNumber.as_f64 : JNumber → ℚ
  | .posInt n => (n : ℚ)
  | .negInt n => (n : ℚ)
  | .float q => q

mutual
/-- `json_to_pb_value`. -/
def json_to_pb_value : Json → PbValue
  | .null => some (.nullValue 0)
  | .bool b => some (.boolValue b)
  | .num n => some (.numberValue n.as_f64)
  | .str s => some (.stringValue s)
  | .arr elems => some (.listValue (jsonListToPb elems))
  | .obj fields => some (.structValue (jsonObjToPb fields))

/-- `arr.into_iter().map(json_to_pb_value).collect()`. -/
def jsonListToPb : List Json → List PbValue
  | [] => []
  | v :: t => json_to_pb_value v :: jsonListToPb t

/-- `map.into_iter().map(|(k, v)| (k, json_to_pb_value(v))).collect()`. -/
def jsonObjToPb : List (String × Json) → List (String × PbValue)
  | [] => []
  | (k, v) :: t => (k, json_to_pb_value v) :: jsonObjToPb t
end

mutual
/-- `pb_value_to_json`; `serde_json::Value::from(f64)` produces a
float-represented number (every modelled `f64` is finite). -/
def pb_value_to_json : PbValue → Json
  | some (.nullValue _) => .null
  | some (.numberValue q) => .num (.float q)
  | some (.stringValue s) => .str s
  | some (.boolValue b) => .bool b
  | some (.structValue fields) => .obj (pb_struct_to_json fields)
  | some (.listValue values) => .arr (pbListToJson values)
  | none => .null

/-- `list.values.iter().map(pb_value_to_json).collect()`. -/
def pbListToJson : List PbValue → List Json
  | [] => []
  | v :: t => pb_value_to_json v :: pbListToJson t

/-- `pb_struct_to_json`, over the struct's field entries. -/
def pb_struct_to_json : List (String × PbValue) → List (String × Json)
  | [] => []
  | (k, v) :: t => (k, pb_value_to_json v) :: pb_struct_to_json t
end

mutual
/-- Every number inside the value is float-represented. -/
def floatOnly : Json → Bool
  | .null => true
  | .bool _ => true
  | .num n => match n with
    | .float _ => true
    | .posInt _ => false
    | .negInt _ => false
  | .str _ => true
  | .arr l => floatOnlyList l
  | .obj f => floatOnlyObj f

def floatOnlyList : List Json → Bool
  | [] => true
  | v :: t => floatOnly v && floatOnlyList t

def floatOnlyObj : List (String × Json) → Bool
  | [] => true
  | (_, v) :: t => floatOnly v && floatOnlyObj t
end

mutual
/-- Round trip on values whose numbers are all float-represented. -/
theorem pbRoundtripAux (v : Json) (h : floatOnly v = true) :
    pb_value_to_json (json_to_pb_value v) = v := by
  match v with
  | .null => simp [json_to_pb_value, pb_value_to_json]
  | .bool b => simp [json_to_pb_value, pb_value_to_json]
  | .str s => simp [json_to_pb_value, pb_value_to_json]
  | .num n =>
    match n with
    | .float q => simp [json_to_pb_value, pb_value_to_json, JNumber.as_f64]
    | .posInt m => simp [floatOnly] at h
    | .negInt m => simp [floatOnly] at h
  | .arr l =>
    have hl : floatOnlyList l = true := by simpa [floatOnly] using h
    rw [json_to_pb_value, pb_value_to_json, pbRoundtripAuxList l hl]
  | .obj f =>
    have hf : floatOnlyObj f = true := by simpa [floatOnly] using h
    rw [json_to_pb_value, pb_value_to_json, pbRoundtripAuxObj f hf]

theorem pbRoundtripAuxList (l : List Json) (h : floatOnlyList l = true) :
    pbListToJson (jsonListToPb l) = l := by
  match l with
  | [] => simp [jsonListToPb, pbListToJson]
  | v :: t =>
    rw [floatOnlyList, Bool.and_eq_true] at h
    rw [jsonListToPb, pbListToJson, pbRoundtripAux v h.1, pbRoundtripAuxList t h.2]

theorem pbRoundtripAuxObj (f : List (String × Json)) (h : floatOnlyObj f = true) :
    pb_struct_to_json (jsonObjToPb f) = f := by
  match f with
  | [] => simp [jsonObjToPb, pb_struct_to_json]
  | (k, v) :: t =>
    rw [floatOnlyObj, Bool.and_eq_true] at h
    rw [jsonObjToPb, pb_struct_to_json, pbRoundtripAux v h.1, pbRoundtripAuxObj t h.2]
end

/-- C9 (amended).  The wire round trip `pb_value_to_json ∘
json_to_pb_value` is the identity on every JSON value whose numbers are
all float-represented (null, bool, string, arrays and objects included).
Integer-represented numbers come back as the numerically equal
float-represented number, which `serde_json`'s representation-sensitive
equality distinguishes from the original. -/
theorem pb_roundtrip (v : Json) (h : floatOnly v = true) :
    pb_value_to_json (json_to_pb_value v) = v :=
  pbRoundtripAux v h

/-- Counterexample for C9 as stated: the integer-represented JSON number
`1` (well inside `2^53`) round-trips to the float-represented `1.0`,
which is a different `serde_json` value. -/
theorem pb_roundtrip_counterexample :
    pb_value_to_json (json_to_pb_value (Json.num (JNumber.posInt 1)))
      = Json.num (JNumber.float 1)
    ∧ Json.num (JNumber.float 1) ≠ Json.num (JNumber.posInt 1) := by
  constructor
  · simp [json_to_pb_value, pb_value_to_json, JNumber.as_f64]
  · intro hc
    injection hc with h1
    exact JNumber.noConfusion h1

/-- Witness for C9 on a nested value with float-represented numbers. -/
theorem pb_roundtrip_witness :
    floatOnly (Json.obj [("a", Json.arr [Json.num (JNumber.float (3 / 2)), Json.bool true]),
        ("b", Json.null), ("c", Json.str "s")]) = true
    ∧ pb_value_to_json (json_to_pb_value
        (Json.obj [("a", Json.arr [Json.num (JNumber.float (3 / 2)), Json.bool true]),
          ("b", Json.null), ("c", Json.str "s")]))
      = Json.obj [("a", Json.arr [Json.num (JNumber.float (3 / 2)), Json.bool true]),
          ("b", Json.null), ("c", Json.str "s")] := by
  have hf : floatOnly (Json.obj [("a", Json.arr [Json.num (JNumber.float (3 / 2)),
      Json.bool true]), ("b", Json.null), ("c", Json.str "s")]) = true := by
    simp [floatOnly, floatOnlyList, floatOnlyObj]
  exact ⟨hf, pb_roundtrip _ hf⟩

end Yamlet
